import Mathlib

/-!
Verification development for the kigwiki-docusaurus repository.

Shallow embedding of the build-time data pipeline (`src/plugins/remark-social-embeds.ts`,
maker-data plugin portion), the currency converter (`src/utils/currency-converter.ts`,
appended to `src/utils/filterUtils.ts` in the source pack) and the client-side
filter/sort utilities (`src/utils/filterUtils.ts`).

JavaScript numbers are modelled as rationals (ℚ); JS strings as Lean `String`;
JS `undefined`-able fields as `Option`; throwing code as `Except`.
-/

namespace KigWiki

/-! ## JS string primitives

Models of the JavaScript string operations the source uses:
`toLowerCase` / `toUpperCase` (ASCII range, as used on the ASCII field names,
currency codes and keyword searches in this code base), `includes` (substring
test), `trim` (whitespace stripping). -/

def jsCharLower (c : Char) : Char :=
  if 'A' ≤ c ∧ c ≤ 'Z' then Char.ofNat (c.toNat + 32) else c

def jsCharUpper (c : Char) : Char :=
  if 'a' ≤ c ∧ c ≤ 'z' then Char.ofNat (c.toNat - 32) else c

def jsToLower (s : String) : String := String.mk (s.data.map jsCharLower)

def jsToUpper (s : String) : String := String.mk (s.data.map jsCharUpper)

/-- Is `pre` a prefix of `l`? (auxiliary for the substring test) -/
def isPrefixChars : List Char → List Char → Bool
  | [], _ => true
  | _ :: _, [] => false
  | a :: as, b :: bs => a == b && isPrefixChars as bs

/-- Does `needle` occur as a contiguous sublist of `hay`? -/
def containsAt : List Char → List Char → Bool
  | [], needle => needle.isEmpty
  | c :: rest, needle => isPrefixChars needle (c :: rest) || containsAt rest needle

/-- Model of JS `hay.includes(needle)`. -/
def jsIncludes (hay needle : String) : Bool := containsAt hay.data needle.data

def jsWhitespaceChar (c : Char) : Bool :=
  c == ' ' || c == '\t' || c == '\n' || c == '\r' || c == '\x0b' || c == '\x0c'

/-- Model of JS `String.prototype.endsWith`. -/
def jsEndsWith (s suffix : String) : Bool :=
  isPrefixChars suffix.data.reverse s.data.reverse

/-- Model of JS `String.prototype.trim`. -/
def jsTrim (s : String) : String :=
  String.mk (((s.data.dropWhile jsWhitespaceChar).reverse.dropWhile jsWhitespaceChar).reverse)

/-! ## Numeric extraction (regex models)

`convertPriceString` uses the regex `[\d,]+\.?\d*` (leftmost match), strips
commas from the match, and feeds the result to `parseFloat`. We model the
leftmost match of that regex directly on the character list. -/

def isDigitChar (c : Char) : Bool := '0' ≤ c && c ≤ '9'

def isDigitOrComma (c : Char) : Bool := isDigitChar c || c == ','

/-- Greedy match of `[\d,]+\.?\d*` anchored at the head of `l` (the regex's
three pieces are each greedy; `[\d,]+` needs at least one character). -/
def matchNumHere : List Char → Option (List Char)
  | [] => none
  | c :: rest =>
    if isDigitOrComma c then
      let r1 := (c :: rest).takeWhile isDigitOrComma
      let after1 := (c :: rest).dropWhile isDigitOrComma
      match after1 with
      | '.' :: rest2 => some (r1 ++ ['.'] ++ rest2.takeWhile isDigitChar)
      | _ => some r1
    else none

/-- Leftmost match of `[\d,]+\.?\d*` in `l`. -/
def findNumMatch : List Char → Option (List Char)
  | [] => none
  | c :: rest =>
    match matchNumHere (c :: rest) with
    | some m => some m
    | none => findNumMatch rest

def digitVal (c : Char) : ℕ := c.toNat - 48

def natOfDigits (l : List Char) : ℕ := l.foldl (fun acc c => 10 * acc + digitVal c) 0

/-- Model of JS `parseFloat` restricted to the comma-stripped regex matches it
receives here, which always have the shape `digits* ['.' digits*]`.
The value is the usual positional one, `intPart + fracPart / 10^(#frac digits)`.
`parseFloat` of a string with no digits at all (`""` or `"."`) is `NaN`,
modelled as `none`. -/
def parseFloatNum (l : List Char) : Option ℚ :=
  let intPart := l.takeWhile isDigitChar
  let rest := l.dropWhile isDigitChar
  let fracPart :=
    match rest with
    | '.' :: r => r.takeWhile isDigitChar
    | _ => []
  if intPart.isEmpty && fracPart.isEmpty then none
  else some ((natOfDigits intPart : ℚ) + (natOfDigits fracPart : ℚ) / 10 ^ fracPart.length)

/-- The numeric-extraction step of `CurrencyConverter.convertPriceString`:
leftmost `[\d,]+\.?\d*` match, commas removed, `parseFloat`. `none` covers
both of the source's early returns (no match, and `NaN` after parsing). -/
def extractAmount (priceStr : String) : Option ℚ :=
  match findNumMatch priceStr.data with
  | none => none
  | some m => parseFloatNum (m.filter (fun c => !(c == ',')))

/-! ## JS number formatting and rounding -/

/-- JS `Math.round`: round half toward +∞, i.e. `⌊x + 1/2⌋`. -/
def jsRound (q : ℚ) : ℤ := ⌊q + 1 / 2⌋

/-- Fractional decimal digits of `q ∈ [0, 1)`, fuelled. -/
def fracDigitsAux : ℕ → ℚ → List Char
  | 0, _ => []
  | fuel + 1, q =>
    if q = 0 then []
    else
      let d : ℤ := ⌊q * 10⌋
      Char.ofNat (48 + d.toNat) :: fracDigitsAux fuel (q * 10 - (d : ℚ))

/-- Model of JS `Number.prototype.toString` on the non-negative numbers with
short decimal expansions produced by `parseFloat` here (JS prints the shortest
round-tripping decimal; on such inputs that is the exact decimal expansion). -/
def jsNumToString (q : ℚ) : String :=
  let i : ℤ := ⌊q⌋
  if q = (i : ℚ) then toString i
  else toString i ++ "." ++ String.mk (fracDigitsAux 30 (q - (i : ℚ)))

/-! ## CurrencyConverter (`src/utils/currency-converter.ts`) -/

structure ConvertedPrice where
  original : String
  originalCurrency : String
  converted : ℚ
  convertedFormatted : String
deriving DecidableEq, Repr

/-- `CurrencyRates`: `{date, usd: Record<currency-code, rate>}`. The JS object
is modelled as an association list; property lookup takes the first match. -/
structure CurrencyRates where
  date : String
  usd : List (String × ℚ)
deriving DecidableEq, Repr

def lookupRate (rs : CurrencyRates) (code : String) : Option ℚ :=
  (rs.usd.find? (fun p => p.1 == code)).map (fun p => p.2)

/-- The unknown-currency result of `convertPrice` (the `if (!rate)` branch):
`{original: amount.toString(), originalCurrency, converted: amount,
convertedFormatted: $Math.round(amount)}`. -/
def unknownCurrencyResult (amount : ℚ) (fromCurrency : String) : ConvertedPrice :=
  { original := jsNumToString amount
    originalCurrency := fromCurrency
    converted := amount
    convertedFormatted := "$" ++ toString (jsRound amount) }

/-- `CurrencyConverter.convertPrice`. Throws (models as `.error`) when
`this.rates` is `null`. Rate lookup key is `fromCurrency.toUpperCase().toLowerCase()`.
JS `!rate` is true both when the key is absent and when the rate is `0`
(falsy), so both go to the unknown-currency branch. Otherwise the result is
`amount / rate` rounded with `Math.round`. -/
def convertPrice (rates : Option CurrencyRates) (amount : ℚ) (fromCurrency : String) :
    Except String ConvertedPrice :=
  match rates with
  | none => Except.error "Currency rates not loaded"
  | some rs =>
    match lookupRate rs (jsToLower (jsToUpper fromCurrency)) with
    | none => Except.ok (unknownCurrencyResult amount fromCurrency)
    | some rate =>
      if rate = 0 then Except.ok (unknownCurrencyResult amount fromCurrency)
      else
        Except.ok
          { original := jsNumToString amount
            originalCurrency := fromCurrency
            converted := (jsRound (amount / rate) : ℚ)
            convertedFormatted := "$" ++ toString (jsRound (amount / rate)) }

/-- `CurrencyConverter.convertPriceString`: extract a numeric value from the
price string; if none is found (or it parses to `NaN`) return the string
unconverted in both `original` and `convertedFormatted`; otherwise convert. -/
def convertPriceString (rates : Option CurrencyRates) (priceStr currency : String) :
    Except String ConvertedPrice :=
  match extractAmount priceStr with
  | none =>
    Except.ok
      { original := priceStr
        originalCurrency := currency
        converted := 0
        convertedFormatted := priceStr }
  | some amount => convertPrice rates amount currency

/-! ## `CurrencyConverter.loadRates`

`loadRates` interacts with the file system and the network; its outcomes are
modelled by an environment record. `localFile = none` means the cache file
does not exist; `some none` means reading/parsing it throws; `some (some r)`
means it parses to the (well-typed) rates value `r`. `fetched = some r` means
the fetch, the HTTP status check, the JSON decode and the persisting write all
succeed yielding `r`; `fetched = none` covers any failure in that `try` block
(the `catch` installs the fallback table — note that a write failure after a
successful decode also lands in the `catch`, overwriting `this.rates` with the
fallback, so the final state is still captured). `today` stands for
`new Date().toISOString().split('T')[0]`. -/

structure RatesEnv where
  localFile : Option (Option CurrencyRates)
  fetched : Option CurrencyRates
deriving DecidableEq, Repr

/-- The embedded static fallback table from the `catch` block of `loadRates`. -/
def fallbackRates (today : String) : CurrencyRates :=
  { date := today
    usd :=
      [("usd", 1), ("eur", 0.85), ("gbp", 0.73), ("jpy", 148), ("cny", 7.1),
       ("cad", 1.38), ("aud", 1.51), ("chf", 0.79), ("krw", 1394), ("inr", 88),
       ("brl", 5.3), ("mxn", 18.4), ("rub", 83.3), ("try", 41.4), ("zar", 17.4),
       ("sek", 9.36), ("nok", 9.89), ("dkk", 6.34), ("pln", 3.62), ("czk", 20.6),
       ("huf", 330.8), ("ron", 4.3), ("bgn", 1.66), ("hrk", 6.4), ("rsd", 99.5),
       ("uah", 41.2), ("byn", 3.39), ("kzt", 541), ("uzs", 12314), ("kgs", 87.5),
       ("tjs", 9.38), ("tmt", 3.5), ("afn", 67.3), ("pkr", 283.1), ("lkr", 302),
       ("bdt", 121.7), ("npr", 141.2), ("mmk", 2099), ("thb", 31.9), ("lak", 21666),
       ("khr", 4006), ("vnd", 26388), ("idr", 16570), ("myr", 4.21), ("sgd", 1.28),
       ("php", 57.2), ("twd", 30.2), ("hkd", 7.78), ("mop", 8.01), ("aed", 3.67),
       ("sar", 3.75), ("qar", 3.64), ("kwd", 0.31), ("bhd", 0.38), ("omr", 0.38),
       ("jod", 0.71), ("ils", 3.34), ("egp", 48.2), ("lyd", 5.4), ("tnd", 2.9),
       ("dzd", 129.4), ("mad", 9.01), ("mru", 39.9), ("xof", 557), ("xaf", 557),
       ("gnf", 8668), ("lrd", 177.8), ("sll", 22805), ("ghs", 12.3), ("ngn", 1495),
       ("cdf", 2766), ("rwf", 1446), ("ugx", 3502), ("tzs", 2473), ("kes", 129.4),
       ("etb", 143.6), ("djf", 178), ("sos", 571), ("mwk", 1734), ("zmw", 23.7),
       ("bwp", 14.2), ("szl", 17.4), ("lsl", 17.4), ("nad", 17.4), ("aoa", 915),
       ("mzn", 63.9)] }

/-- The fetch-or-fallback second half of `loadRates`. -/
def fetchOrFallback (env : RatesEnv) (today : String) : Option CurrencyRates :=
  match env.fetched with
  | some r => some r
  | none => some (fallbackRates today)

/-- `CurrencyConverter.loadRates`: returns the final value of `this.rates`
(which starts out `null`, i.e. `none`). Cache file first; on read/parse
failure (or absence) the remote fetch; on total failure the fallback table. -/
def loadRates (env : RatesEnv) (today : String) : Option CurrencyRates :=
  match env.localFile with
  | some (some r) => some r
  | some none => fetchOrFallback env today
  | none => fetchOrFallback env today

/-! ## Price examples and their conversion (maker-data plugin) -/

/-- `PriceExample`: `{type, price, link?}`. The source declares
`price: string | number` and the conversion step always begins with
`example.price.toString()`, so the price is modelled in its string form. -/
structure PriceExample where
  type : String
  price : String
  link : Option String := none
deriving DecidableEq, Repr

/-- One step of `convertPriceExamples`: convert the price string and rewrite
the `price` field as
`` `${converted.convertedFormatted} USD (${converted.original} ${converted.originalCurrency})` ``;
if the converter throws, the `catch` returns the example unchanged. -/
def convertPriceExample (rates : Option CurrencyRates) (currency : String)
    (ex : PriceExample) : PriceExample :=
  match convertPriceString rates ex.price currency with
  | Except.ok c =>
    { ex with
      price := c.convertedFormatted ++ " USD (" ++ c.original ++ " " ++ c.originalCurrency ++ ")" }
  | Except.error _ => ex

/-- `convertPriceExamples` (the `itemName` argument is only used for logging). -/
def convertPriceExamples (rates : Option CurrencyRates) (currency : String)
    (l : List PriceExample) : List PriceExample :=
  l.map (convertPriceExample rates currency)

/-! ## Directory loading (`loadJsonFiles` / `loadSingleJsonFile`)

The file system and `JSON.parse` are modelled by data: a directory is
`none` (does not exist) or a list of `(fileName, content)` entries where
`content = none` models a read (`fs.readFileSync`) failure; the JSON parser is
an arbitrary function `parse` with `none` modelling a `JSON.parse` throw.
Each loader returns the parsed record (or `none`) together with the number of
warning log lines it emits (`log('Error loading ...')`). -/

def loadSingleJsonFile {α : Type} (parse : String → Option α) (content : Option String) :
    Option α × ℕ :=
  match content with
  | none => (none, 1)
  | some c =>
    match parse c with
    | none => (none, 1)
    | some r => (some r, 0)

/-- `loadJsonFiles`: empty result for a missing directory; otherwise filter the
listing to `*.json`, load each file independently, and keep the successes
(`.filter(Boolean)`). Returns the record list and the total warning count. -/
def loadJsonFiles {α : Type} (parse : String → Option α)
    (dir : Option (List (String × Option String))) : List α × ℕ :=
  match dir with
  | none => ([], 0)
  | some files =>
    let jsonFiles := files.filter (fun f => jsEndsWith f.1 ".json")
    let results := jsonFiles.map (fun f => loadSingleJsonFile parse f.2)
    (results.filterMap (fun r => r.1), (results.map (fun r => r.2)).sum)

/-! ## Record types (maker-data plugin interfaces)

`SocialLinks` / `Features` / `HairOptions` are JS objects consumed generically
(`Object.entries`), modelled as association lists. `englishOrdering` is
`boolean | string`. -/

inductive EngOrd
  | bool : Bool → EngOrd
  | str : String → EngOrd
deriving DecidableEq, Repr

structure PriceDetails where
  generic : Option String := none
  semiCustom : Option String := none
  fullCustom : Option String := none
deriving DecidableEq, Repr

/-- Normalized `Maker` record (interface `Maker`). In the normalized output,
`socials`, `features` and `hairOptions` are always objects (defaulted to `{}`),
so they are not `Option`. -/
structure Maker where
  name : String
  alias' : Option String := none
  website : Option String := none
  status : Option String := none
  region : Option String := none
  socials : List (String × String) := []
  priceRange : Option String := none
  priceDetails : Option PriceDetails := none
  approxStartingPrice : Option String := none
  currency : Option String := none
  priceTier : Option String := none
  type : Option String := none
  size : Option String := none
  materialType : Option String := none
  englishOrdering : Option EngOrd := none
  features : List (String × Bool) := []
  hairOptions : List (String × Bool) := []
  notes : Option String := none
deriving DecidableEq, Repr

/-- Normalized `Hadatai` record. After `transformSingleHadatai`,
`englishOrdering` is always set (to `getEnglishOrderingSupport item`), which
the non-`Option` field type records. -/
structure Hadatai where
  name : String
  region : Option String := none
  currency : Option String := none
  socials : List (String × String) := []
  priceExamples : List PriceExample := []
  notes : Option String := none
  englishOrdering : EngOrd := EngOrd.bool false
deriving DecidableEq, Repr

/-- Raw maker object as produced by `JSON.parse` — every field may be absent.
Both casings of the region field exist in source data (`getRegion` accepts
`item.Region || item.region`). -/
structure RawMaker where
  name : Option String := none
  alias' : Option String := none
  website : Option String := none
  status : Option String := none
  Region : Option String := none
  region : Option String := none
  socials : Option (List (String × String)) := none
  priceRange : Option String := none
  priceDetails : Option PriceDetails := none
  approxStartingPrice : Option String := none
  currency : Option String := none
  priceTier : Option String := none
  type : Option String := none
  size : Option String := none
  materialType : Option String := none
  englishOrdering : Option EngOrd := none
  features : Option (List (String × Bool)) := none
  hairOptions : Option (List (String × Bool)) := none
  notes : Option String := none
deriving DecidableEq, Repr

structure RawHadatai where
  name : Option String := none
  Region : Option String := none
  region : Option String := none
  currency : Option String := none
  socials : Option (List (String × String)) := none
  priceExamples : Option (List PriceExample) := none
  notes : Option String := none
  englishOrdering : Option EngOrd := none
deriving DecidableEq, Repr

/-! ## Normalization helpers -/

/-- JS `a || b` on possibly-absent strings (the empty string is falsy). -/
def jsOrStr : Option String → Option String → Option String
  | some s, b => if s = "" then b else some s
  | none, b => b

/-- `item.name || 'Unknown'`. -/
def jsNameOr : Option String → String
  | some s => if s = "" then "Unknown" else s
  | none => "Unknown"

/-- JS truthiness of a possibly-absent string. -/
def jsTruthyStr : Option String → Bool
  | some s => !(s == "")
  | none => false

/-- `getRegion`: `item.Region || item.region`. (Signature on `RawMaker`.) -/
def getRegion (item : RawMaker) : Option String := jsOrStr item.Region item.region

/-- `getRegion` applied to a raw hadatai object. -/
def getRegionH (item : RawHadatai) : Option String := jsOrStr item.Region item.region

/-- `transformSingleMaker`: field-by-field normalization with defaults
(`name || 'Unknown'`, `socials || {}`, `features || {}`, `hairOptions || {}`).
The `try`/`catch` wrapper in the source can only rethrow an exception raised
by the object literal itself; plain property accesses on a (non-null) parsed
object never throw, so the function is total. -/
def transformSingleMaker (item : RawMaker) : Maker :=
  { name := jsNameOr item.name
    alias' := item.alias'
    website := item.website
    status := item.status
    region := getRegion item
    socials := item.socials.getD []
    priceRange := item.priceRange
    priceDetails := item.priceDetails
    approxStartingPrice := item.approxStartingPrice
    currency := item.currency
    priceTier := item.priceTier
    type := item.type
    size := item.size
    materialType := item.materialType
    englishOrdering := item.englishOrdering
    features := item.features.getD []
    hairOptions := item.hairOptions.getD []
    notes := item.notes }

/-- `transformMakerData = rawData.map(transformSingleMaker)` (the converter
argument is unused for makers — the price-conversion block is commented out). -/
def transformMakerData (rawData : List RawMaker) : List Maker :=
  rawData.map transformSingleMaker

/-- `getPriceExamples`: `item.priceExamples || []`; early return if the record
has no (truthy) currency or no examples, else convert. -/
def getPriceExamples (rates : Option CurrencyRates) (item : RawHadatai) : List PriceExample :=
  let priceExamples := item.priceExamples.getD []
  if !(jsTruthyStr item.currency) || priceExamples.isEmpty then priceExamples
  else convertPriceExamples rates (item.currency.getD "") priceExamples

/-- `getEnglishOrderingSupport`: explicit field passed through; otherwise a
keyword heuristic over the lowercased notes plus the currency, with the
Taobao-agent check taking precedence, and `false` as the final default. -/
def getEnglishOrderingSupport (item : RawHadatai) : EngOrd :=
  match item.englishOrdering with
  | some v => v
  | none =>
    let notes := (item.notes.map jsToLower).getD ""
    let hasWebsiteOrdering :=
      jsIncludes notes "website" || jsIncludes notes "ordered via their own website"
    let hasEnglishSupport := jsIncludes notes "english" || jsIncludes notes "international"
    let hasUSDCurrency := item.currency == some "USD"
    let requiresTaobaoAgent := jsIncludes notes "taobao" && jsIncludes notes "agent"
    if requiresTaobaoAgent then EngOrd.bool false
    else if hasWebsiteOrdering || hasEnglishSupport || hasUSDCurrency then EngOrd.bool true
    else EngOrd.bool false

/-- `transformSingleHadatai`. Like `transformSingleMaker`, total on parsed
objects. -/
def transformSingleHadatai (rates : Option CurrencyRates) (item : RawHadatai) : Hadatai :=
  { name := jsNameOr item.name
    region := getRegionH item
    currency := item.currency
    socials := item.socials.getD []
    priceExamples := getPriceExamples rates item
    notes := item.notes
    englishOrdering := getEnglishOrderingSupport item }

def transformHadataiData (rates : Option CurrencyRates) (rawData : List RawHadatai) :
    List Hadatai :=
  rawData.map (transformSingleHadatai rates)

/-! ## RateLimiter (`src/plugins/remark-social-embeds.ts`, lines 5–52)

The limiter is promise-based JS running on a single-threaded event loop. Its
observable behaviour on a batch of tasks submitted at time 0 is deterministic
and is modelled by the timed recurrence below. A task is its duration plus
its outcome (`add` wraps the body in a closure that `resolve`s the result or
`reject`s the error — the wrapper itself never throws, so the drain loop's
`await fn()` always continues to the next queued task).

Each drain iteration: if less than `interval` has elapsed since the previous
task's recorded start, sleep out the difference (so the next start is
`lastCallTime + interval`); otherwise start immediately; record the start
time; run the task to completion before looking at the queue again. Time is
measured from the submission instant, with `lastCallTime` initialized to `0`
as in the source. -/

instance exceptDecEq {ε α : Type} [DecidableEq ε] [DecidableEq α] :
    DecidableEq (Except ε α) := fun a b =>
  match a, b with
  | Except.error e, Except.error f =>
    if h : e = f then isTrue (congrArg Except.error h)
    else isFalse (fun hh => h (Except.error.inj hh))
  | Except.ok x, Except.ok y =>
    if h : x = y then isTrue (congrArg Except.ok h)
    else isFalse (fun hh => h (Except.ok.inj hh))
  | Except.error _, Except.ok _ => isFalse (fun hh => Except.noConfusion hh)
  | Except.ok _, Except.error _ => isFalse (fun hh => Except.noConfusion hh)

structure QTask where
  id : ℕ
  dur : ℕ
  result : Except String ℕ
deriving DecidableEq, Repr

structure ExecRecord where
  id : ℕ
  start : ℕ
  settled : Except String ℕ
deriving DecidableEq, Repr

/-- The drain loop (`RateLimiter.process`): state is the current time and the
`lastCallTime`; the queue is served front to back (`queue.shift()`). -/
def drain (interval : ℕ) : ℕ → ℕ → List QTask → List ExecRecord
  | _, _, [] => []
  | now, last, t :: rest =>
    let s := if now - last < interval then last + interval else now
    { id := t.id, start := s, settled := t.result } :: drain interval (s + t.dur) s rest

/-- A batch of tasks all submitted (in list order) at time 0, then drained. -/
def runQueue (interval : ℕ) (tasks : List QTask) : List ExecRecord :=
  drain interval 0 0 tasks

/-! ## Generic sorter (`createSorter`, `src/utils/filterUtils.ts`)

The comparator reads the sort-key field of each record: `undefined`, a string,
or some other defined value (`typeof ≠ 'string'`, compared as equal). String
comparison defers to `localeCompare`, modelled as an arbitrary comparison
function `lc` (the concrete examples instantiate it with code-point order,
which agrees with every locale on plain ASCII letters). `Array.prototype.sort`
is stable (ES2019) and is modelled as a stable insertion sort on the
comparator. -/

inductive SortVal
  | str : String → SortVal
  | other : SortVal
deriving DecidableEq, Repr

inductive SortDir
  | asc
  | desc
deriving DecidableEq, Repr

/-- The comparator body of `createSorter` (and the identical undefined/string
handling in `sortMakers` / `sortHadatai`). -/
def sorterCmp (lc : String → String → Int) (dir : SortDir) :
    Option SortVal → Option SortVal → Int
  | none, none => 0
  | none, some _ => match dir with | SortDir.asc => 1 | SortDir.desc => -1
  | some _, none => match dir with | SortDir.asc => -1 | SortDir.desc => 1
  | some (SortVal.str x), some (SortVal.str y) =>
    match dir with | SortDir.asc => lc x y | SortDir.desc => lc y x
  | some _, some _ => 0

/-- Stable sort by a JS comparator (`cmp a b ≤ 0` keeps `a` no later than `b`). -/
def jsSortStable {α : Type} (cmp : α → α → Int) (l : List α) : List α :=
  List.insertionSort (fun a b => cmp a b ≤ 0) l

/-- `createSorter()(data, sortConfig)`: copy (`[...data]`) then stable sort by
the comparator over the projected sort key. -/
def createSorter {α : Type} (lc : String → String → Int) (keyFn : α → Option SortVal)
    (dir : SortDir) (data : List α) : List α :=
  jsSortStable (fun a b => sorterCmp lc dir (keyFn a) (keyFn b)) data

/-- Code-point comparison of strings: the instantiation of `localeCompare`
used in concrete examples (they only involve plain ASCII letters, where all
locales agree with code-point order). -/
def lexCmp (a b : String) : Int :=
  match compare a b with
  | Ordering.lt => -1
  | Ordering.eq => 0
  | Ordering.gt => 1

/-! ## Search filters (`filterMakersBySearch` / `filterHadataiBySearch`) -/

/-- The predicate body of `filterMakersBySearch` for a lowercased term. -/
def makerMatchesCode (term : String) (maker : Maker) : Bool :=
  let fieldValues :=
    [jsToLower maker.name,
     (maker.alias'.map jsToLower).getD "",
     (maker.notes.map jsToLower).getD "",
     (maker.priceRange.map jsToLower).getD "",
     (maker.priceTier.map jsToLower).getD "",
     (maker.type.map jsToLower).getD "",
     (maker.region.map jsToLower).getD "",
     (maker.size.map jsToLower).getD "",
     (maker.materialType.map jsToLower).getD ""]
  let englishOrderingMatch :=
    match maker.englishOrdering with
    | some (EngOrd.str s) => jsIncludes (jsToLower s) term
    | _ => false
  let featuresMatch :=
    (maker.features.filter (fun p => p.2)).any (fun p => jsIncludes (jsToLower p.1) term)
  fieldValues.any (fun f => jsIncludes f term) || englishOrderingMatch || featuresMatch

/-- `filterMakersBySearch`: whitespace-only terms return the input; otherwise
filter by the lowercased-substring predicate. -/
def filterMakersBySearch (data : List Maker) (searchTerm : String) : List Maker :=
  if jsTrim searchTerm = "" then data
  else data.filter (makerMatchesCode (jsToLower searchTerm))

/-- The predicate body of `filterHadataiBySearch` for a lowercased term. -/
def hadataiMatchesCode (term : String) (item : Hadatai) : Bool :=
  let searchableFields :=
    [jsToLower item.name,
     (item.region.map jsToLower).getD "",
     (item.notes.map jsToLower).getD ""]
  let priceExamplesMatch :=
    item.priceExamples.any (fun ex =>
      jsIncludes (jsToLower ex.type) term || jsIncludes (jsToLower ex.price) term)
  searchableFields.any (fun f => jsIncludes f term) || priceExamplesMatch

def filterHadataiBySearch (data : List Hadatai) (searchTerm : String) : List Hadatai :=
  if jsTrim searchTerm = "" then data
  else data.filter (hadataiMatchesCode (jsToLower searchTerm))

/-! ## Spec-level search predicates (for the search-contract claim)

The spec phrases the contract as: a record is kept exactly when one of its
configured searchable fields, case-folded, contains the case-folded query as a
substring. These definitions follow the spec's words; the theorems relate
them to the code predicates above. -/

/-- The configured searchable fields of a Maker, per the spec: name, alias,
notes, price range/tier, type, region, size, material, the english-ordering
text when it is a string, and every enabled feature key. -/
def makerSearchFields (m : Maker) : List String :=
  [m.name, m.alias'.getD "", m.notes.getD "", m.priceRange.getD "", m.priceTier.getD "",
   m.type.getD "", m.region.getD "", m.size.getD "", m.materialType.getD ""]
    ++ (match m.englishOrdering with | some (EngOrd.str s) => [s] | _ => [])
    ++ (m.features.filter (fun p => p.2)).map (fun p => p.1)

def makerMatchesSpec (m : Maker) (q : String) : Bool :=
  (makerSearchFields m).any (fun f => jsIncludes (jsToLower f) (jsToLower q))

/-- The configured searchable fields of a Hadatai, per the spec: name, region,
notes, and each price example's type label and price text. -/
def hadataiSearchFields (h : Hadatai) : List String :=
  [h.name, h.region.getD "", h.notes.getD ""]
    ++ h.priceExamples.flatMap (fun ex => [ex.type, ex.price])

def hadataiMatchesSpec (h : Hadatai) (q : String) : Bool :=
  (hadataiSearchFields h).any (fun f => jsIncludes (jsToLower f) (jsToLower q))

/-- A bare `{name}` object, as in the spec's sort example
`[{name:"B"}, {name:undefined}, {name:"A"}]`. -/
structure NamedRec where
  name : Option String
deriving DecidableEq, Repr

/- ------------------------------------------------------------------ -/
/- Theorems                                                           -/
/- ------------------------------------------------------------------ -/

/-! ## Rate limiter lemmas -/

/-- Each executed task settles with exactly its own body's outcome, in queue
order. -/
theorem drain_settlements (I : ℕ) :
    ∀ (ts : List QTask) (now last : ℕ),
      (drain I now last ts).map (fun r => (r.id, r.settled)) =
        ts.map (fun t => (t.id, t.result))
  | [], _, _ => rfl
  | t :: rest, now, last => by
    simp only [drain, List.map_cons, List.cons.injEq]
    exact ⟨trivial, drain_settlements I rest _ _⟩

theorem drain_ids (I : ℕ) :
    ∀ (ts : List QTask) (now last : ℕ),
      (drain I now last ts).map (fun r => r.id) = ts.map (fun t => t.id)
  | [], _, _ => rfl
  | t :: rest, now, last => by
    simp only [drain, List.map_cons, List.cons.injEq]
    exact ⟨trivial, drain_ids I rest _ _⟩

/-- The next start time is at least `lastCallTime + interval`. -/
theorem startStep_lb (I now last : ℕ) (h : last ≤ now) :
    last + I ≤ (if now - last < I then last + I else now) := by
  split
  · exact le_refl _
  · omega

/-- Start-time lower bound: the `k`-th (0-indexed) record of a drain that
begins with `lastCallTime = last` starts no earlier than `last + (k+1)·I`. -/
theorem drain_start_lb (I : ℕ) :
    ∀ (ts : List QTask) (now last : ℕ), last ≤ now → ∀ k r,
      (drain I now last ts).get? k = some r → last + (k + 1) * I ≤ r.start
  | [], _, _, _, k, r, hr => by simp [drain] at hr
  | t :: rest, now, last, hle, 0, r, hr => by
    simp only [drain, List.get?_cons_zero, Option.some.injEq] at hr
    subst hr
    simpa using startStep_lb I now last hle
  | t :: rest, now, last, hle, Nat.succ k, r, hr => by
    simp only [drain, List.get?_cons_succ] at hr
    have h2 := drain_start_lb I rest ((if now - last < I then last + I else now) + t.dur)
      (if now - last < I then last + I else now) (Nat.le_add_right _ _) k r hr
    have h3 := startStep_lb I now last hle
    calc last + (k + 1 + 1) * I = (last + I) + (k + 1) * I := by ring
      _ ≤ (if now - last < I then last + I else now) + (k + 1) * I :=
          Nat.add_le_add_right h3 _
      _ ≤ r.start := h2

/-- Successive start times are separated by at least the interval. -/
theorem drain_start_succ (I : ℕ) :
    ∀ (ts : List QTask) (now last : ℕ), last ≤ now → ∀ k r1 r2,
      (drain I now last ts).get? k = some r1 →
      (drain I now last ts).get? (k + 1) = some r2 →
      r1.start + I ≤ r2.start
  | [], _, _, _, k, r1, r2, h1, _ => by simp [drain] at h1
  | t :: rest, now, last, hle, 0, r1, r2, h1, h2 => by
    simp only [drain, List.get?_cons_zero, Option.some.injEq] at h1
    simp only [drain, List.get?_cons_succ] at h2
    subst h1
    simpa using drain_start_lb I rest _ _ (Nat.le_add_right _ _) 0 r2 h2
  | t :: rest, now, last, hle, Nat.succ k, r1, r2, h1, h2 => by
    simp only [drain, List.get?_cons_succ] at h1 h2
    exact drain_start_succ I rest _ _ (Nat.le_add_right _ _) k r1 r2 h1 h2

/-- C1: for every minimum interval `I` and every batch of tasks submitted to
the rate-limited queue at time 0, (a) tasks begin execution strictly in
submission order with none dropped or reordered (the execution sequence's ids
equal the submission sequence's ids, and successive start times are at least
`I` apart, so with `I > 0` the temporal order is strict); (b) the `k`-th
executed task (0-indexed; `(k+1)`-th 1-indexed) starts at time
`≥ k·I = (k+1-1)·I`. -/
theorem C1_queue_fifo_and_spacing (I : ℕ) (tasks : List QTask) :
    ((runQueue I tasks).map (fun r => r.id) = tasks.map (fun t => t.id)) ∧
    (∀ k r, (runQueue I tasks).get? k = some r → k * I ≤ r.start) ∧
    (∀ k r1 r2, (runQueue I tasks).get? k = some r1 →
      (runQueue I tasks).get? (k + 1) = some r2 → r1.start + I ≤ r2.start) := by
  refine ⟨drain_ids I tasks 0 0, ?_, ?_⟩
  · intro k r hr
    have h := drain_start_lb I tasks 0 0 (le_refl 0) k r hr
    calc k * I ≤ (k + 1) * I := Nat.mul_le_mul_right _ (Nat.le_succ k)
      _ ≤ r.start := by simpa using h
  · intro k r1 r2 h1 h2
    exact drain_start_succ I tasks 0 0 (le_refl 0) k r1 r2 h1 h2

/-- Witness for C1 at interval 100 and three tasks of durations 30, 250, 0
(computed start times 100, 200, 450). -/
theorem C1_queue_fifo_and_spacing_witness :
    ((runQueue 100 [⟨1, 30, Except.ok 1⟩, ⟨2, 250, Except.error "boom"⟩, ⟨3, 0, Except.ok 3⟩]).map
        (fun r => r.id) =
      [⟨1, 30, Except.ok 1⟩, ⟨2, 250, Except.error "boom"⟩,
        (⟨3, 0, Except.ok 3⟩ : QTask)].map (fun t => t.id)) ∧
    2 * 100 ≤ (ExecRecord.mk 3 450 (Except.ok 3)).start ∧
    (ExecRecord.mk 1 100 (Except.ok 1)).start + 100 ≤
      (ExecRecord.mk 2 200 (Except.error "boom")).start := by
  have h := C1_queue_fifo_and_spacing 100
    [⟨1, 30, Except.ok 1⟩, ⟨2, 250, Except.error "boom"⟩, ⟨3, 0, Except.ok 3⟩]
  exact ⟨h.1, h.2.1 2 (ExecRecord.mk 3 450 (Except.ok 3)) (by decide),
    h.2.2 0 (ExecRecord.mk 1 100 (Except.ok 1)) (ExecRecord.mk 2 200 (Except.error "boom"))
      (by decide) (by decide)⟩

/-- C2: a task whose body rejects delivers the rejection only to its own
promise slot: the queue's settlement sequence is exactly each task's own
outcome in submission order, so the drain loop does not halt at the failure
and every task queued behind the failing one (submitted afterward) still
executes and settles with its own result. -/
theorem C2_failure_isolation (I : ℕ) (pre post : List QTask) (t : QTask) (e : String)
    (h : t.result = Except.error e) :
    ((runQueue I (pre ++ t :: post)).map (fun r => (r.id, r.settled)) =
      pre.map (fun u => (u.id, u.result)) ++
        (t.id, Except.error e) :: post.map (fun u => (u.id, u.result))) ∧
    (runQueue I (pre ++ t :: post)).length = pre.length + 1 + post.length := by
  have hset := drain_settlements I (pre ++ t :: post) 0 0
  constructor
  · unfold runQueue
    rw [hset, List.map_append, List.map_cons, h]
  · have hlen := congrArg List.length hset
    unfold runQueue
    simpa [Nat.add_comm, Nat.add_assoc, Nat.add_left_comm] using hlen

/-- Witness for C2: a failing task between two successful ones. -/
theorem C2_failure_isolation_witness :
    ((runQueue 100 ([⟨1, 5, Except.ok 11⟩] ++ ⟨2, 5, Except.error "boom"⟩ ::
        [⟨3, 5, Except.ok 33⟩])).map (fun r => (r.id, r.settled)) =
      [⟨1, 5, Except.ok 11⟩].map (fun u : QTask => (u.id, u.result)) ++
        (2, Except.error "boom") ::
          [⟨3, 5, Except.ok 33⟩].map (fun u : QTask => (u.id, u.result))) ∧
    (runQueue 100 ([⟨1, 5, Except.ok 11⟩] ++ ⟨2, 5, Except.error "boom"⟩ ::
      [⟨3, 5, Except.ok 33⟩])).length = 1 + 1 + 1 := by
  have h := C2_failure_isolation 100 [⟨1, 5, Except.ok 11⟩] [⟨3, 5, Except.ok 33⟩]
    ⟨2, 5, Except.error "boom"⟩ "boom" rfl
  simpa using h

/-! ## Currency conversion claims -/

/-- C3 counterexample: a price example `{type: "Full suit", price: "Varies"}`
under currency `"JPY"` is NOT returned with its price unchanged by the
conversion step — `convertPriceExamples` composes the display string
unconditionally, yielding `"Varies USD (Varies JPY)"`. -/
theorem C3_varies_counterexample :
    (convertPriceExample (some { date := "2026-01-01", usd := [("jpy", 100)] }) "JPY"
        { type := "Full suit", price := "Varies", link := none }).price ≠ "Varies" := by
  decide

/-- C3 (amended): for every price example whose price string contains no
extractable numeric value and whose record carries a currency code, the
original string passes through the converter unconverted, but the pipeline
still rewrites the price field into the composed format with the original
string in both slots: the price becomes
`"<original> USD (<original> <currency>)"` (it is not left equal to the
original string). -/
theorem C3_varies_passthrough_composed (rates : Option CurrencyRates) (currency : String)
    (ex : PriceExample) (h : extractAmount ex.price = none) :
    convertPriceExample rates currency ex =
      { ex with price := ex.price ++ " USD (" ++ ex.price ++ " " ++ currency ++ ")" } := by
  simp [convertPriceExample, convertPriceString, h]

/-- Witness for the amended C3 at price `"Varies"`, currency `"JPY"`. -/
theorem C3_varies_passthrough_composed_witness :
    convertPriceExample (some (fallbackRates "2026-01-01")) "JPY"
        { type := "Full suit", price := "Varies", link := none } =
      { type := "Full suit", price := "Varies USD (Varies JPY)", link := none } := by
  have h := C3_varies_passthrough_composed (some (fallbackRates "2026-01-01")) "JPY"
    { type := "Full suit", price := "Varies", link := none } (by decide)
  rw [h]
  decide

/-- Concrete evaluation helper: extracting from the string `"1000"`. -/
theorem extractAmount_1000 : extractAmount "1000" = some 1000 := by
  have h : extractAmount "1000" =
      some ((natOfDigits ['1', '0', '0', '0'] : ℚ) +
        (natOfDigits [] : ℚ) / 10 ^ (List.length ([] : List Char))) := rfl
  have h1 : natOfDigits ['1', '0', '0', '0'] = 1000 := by decide
  have h2 : natOfDigits ([] : List Char) = 0 := rfl
  rw [h, h1, h2]
  norm_num

/-- Concrete evaluation helper: `Math.round(1000 / 100) = 10`. -/
theorem jsRound_1000_div_100 : jsRound ((1000 : ℚ) / 100) = 10 := by
  have h : ((1000 : ℚ) / 100 + 1 / 2) = 21 / 2 := by norm_num
  rw [jsRound, h]
  exact Int.floor_eq_iff.mpr (by norm_num)

/-- C4: for every price example whose price string yields numeric amount `a`,
and whose currency code's (lowercased) rate `r` is present in the conversion
table (present in the JS sense: the lookup is truthy, i.e. succeeds with a
non-zero rate), the conversion step computes `Math.round(a / r)` (round half
up) and rewrites the price field as
`"$<rounded> USD (<original> <currency>)"`, where the `<original>` slot is
`amount.toString()` (equal to the original price string whenever that string
is the plain decimal numeral, as in the claim's instance). -/
theorem C4_conversion_formula (rs : CurrencyRates) (ex : PriceExample) (c : String)
    (a r : ℚ) (hx : extractAmount ex.price = some a)
    (hr : lookupRate rs (jsToLower (jsToUpper c)) = some r) (hr0 : r ≠ 0) :
    convertPriceExample (some rs) c ex =
      { ex with
        price := "$" ++ toString (jsRound (a / r)) ++ " USD (" ++
          jsNumToString a ++ " " ++ c ++ ")" } := by
  simp [convertPriceExample, convertPriceString, convertPrice, hx, hr, hr0]

/-- Witness for C4: amount 1000 at rate 100, original string `"1000"`, code
`"JPY"` yields exactly `"$10 USD (1000 JPY)"`. -/
theorem C4_conversion_formula_witness :
    convertPriceExample (some { date := "2026-01-01", usd := [("jpy", 100)] }) "JPY"
        { type := "Full suit", price := "1000", link := none } =
      { type := "Full suit", price := "$10 USD (1000 JPY)", link := none } := by
  have h := C4_conversion_formula { date := "2026-01-01", usd := [("jpy", 100)] }
    { type := "Full suit", price := "1000", link := none } "JPY" 1000 100
    extractAmount_1000 (by decide) (by norm_num)
  rw [h, jsRound_1000_div_100]
  decide

/-! ## Pipeline and loader claims -/

/-- C5: for a directory holding one malformed JSON file and one well-formed
one (in either order), the pipeline's output collection contains exactly the
one record from the well-formed file, exactly one warning is logged for the
malformed file, and the batch completes (is not aborted). -/
theorem C5_malformed_file_isolated {α : Type} (parse : String → Option α)
    (nA nB cA cB : String) (rB : α)
    (hA : jsEndsWith nA ".json" = true) (hB : jsEndsWith nB ".json" = true)
    (hpA : parse cA = none) (hpB : parse cB = some rB) :
    loadJsonFiles parse (some [(nA, some cA), (nB, some cB)]) = ([rB], 1) ∧
    loadJsonFiles parse (some [(nB, some cB), (nA, some cA)]) = ([rB], 1) := by
  constructor <;>
    simp [loadJsonFiles, loadSingleJsonFile, List.filter, hA, hB, hpA, hpB]

/-- Witness for C5 with a two-file directory and a parser rejecting `"bad"`. -/
theorem C5_malformed_file_isolated_witness :
    loadJsonFiles (fun s => if s = "good" then some (42 : ℕ) else none)
        (some [("a.json", some "bad"), ("b.json", some "good")]) = ([42], 1) ∧
    loadJsonFiles (fun s => if s = "good" then some (42 : ℕ) else none)
        (some [("b.json", some "good"), ("a.json", some "bad")]) = ([42], 1) := by
  exact C5_malformed_file_isolated (fun s => if s = "good" then some (42 : ℕ) else none)
    "a.json" "b.json" "bad" "good" 42 (by decide) (by decide) (by decide) (by decide)

/-- C6: `loadRates` never fails — it follows the cache → remote fetch →
embedded fallback chain and always ends with a loaded (non-null) table; hence
`convertPrice` applied after any `loadRates` outcome never reaches its
`"Currency rates not loaded"` error branch. -/
theorem C6_loadRates_total_convert_safe :
    (∀ (env : RatesEnv) (today : String), ∃ r, loadRates env today = some r) ∧
    (∀ (env : RatesEnv) (today : String) (r : CurrencyRates),
      env.localFile = some (some r) → loadRates env today = some r) ∧
    (∀ (env : RatesEnv) (today : String) (r : CurrencyRates),
      (env.localFile = none ∨ env.localFile = some none) →
      env.fetched = some r → loadRates env today = some r) ∧
    (∀ (env : RatesEnv) (today : String),
      (env.localFile = none ∨ env.localFile = some none) →
      env.fetched = none → loadRates env today = some (fallbackRates today)) ∧
    (∀ (env : RatesEnv) (today : String) (amount : ℚ) (c : String),
      ∃ v, convertPrice (loadRates env today) amount c = Except.ok v) := by
  have htot : ∀ (env : RatesEnv) (today : String), ∃ r, loadRates env today = some r := by
    intro env today
    rcases env with ⟨lf, ft⟩
    rcases lf with _ | lf
    · rcases ft with _ | r <;> exact ⟨_, rfl⟩
    · rcases lf with _ | r
      · rcases ft with _ | r <;> exact ⟨_, rfl⟩
      · exact ⟨r, rfl⟩
  refine ⟨htot, ?_, ?_, ?_, ?_⟩
  · intro env today r h
    simp [loadRates, h]
  · intro env today r hl hf
    rcases hl with hl | hl <;> simp [loadRates, fetchOrFallback, hl, hf]
  · intro env today hl hf
    rcases hl with hl | hl <;> simp [loadRates, fetchOrFallback, hl, hf]
  · intro env today amount c
    obtain ⟨r, hr⟩ := htot env today
    rw [hr, convertPrice]
    rcases hl : lookupRate r (jsToLower (jsToUpper c)) with _ | rate
    · exact ⟨_, rfl⟩
    · by_cases h0 : rate = 0
      · simp only [if_pos h0]
        exact ⟨_, rfl⟩
      · simp only [if_neg h0]
        exact ⟨_, rfl⟩

/-- Witness for C6: a run with an unreadable cache file and a failed fetch
installs the fallback table, and a conversion afterwards succeeds. -/
theorem C6_loadRates_total_convert_safe_witness :
    loadRates { localFile := some none, fetched := none } "2026-01-01" =
      some (fallbackRates "2026-01-01") ∧
    (∃ v, convertPrice
      (loadRates { localFile := some none, fetched := none } "2026-01-01") 1000 "JPY" =
        Except.ok v) := by
  have h := C6_loadRates_total_convert_safe
  exact ⟨h.2.2.2.1 { localFile := some none, fetched := none } "2026-01-01" (Or.inr rfl) rfl,
    h.2.2.2.2 { localFile := some none, fetched := none } "2026-01-01" 1000 "JPY"⟩

/-- C7: maker normalization is a total function on parsed raw objects (never
throws, never drops a record — `transformMakerData` preserves length):
normalizing `{name: "Acme"}` yields a record with name `"Acme"` and every
optional field absent or defaulted (`{}` for the three object-valued fields),
and normalizing an object with no name field yields name `"Unknown"`. -/
theorem C7_maker_normalization :
    (transformSingleMaker { name := some "Acme" } = { name := "Acme" }) ∧
    (∀ item : RawMaker, item.name = none → (transformSingleMaker item).name = "Unknown") ∧
    (∀ raws : List RawMaker, (transformMakerData raws).length = raws.length) := by
  refine ⟨by decide, ?_, ?_⟩
  · intro item h
    simp [transformSingleMaker, jsNameOr, h]
  · intro raws
    simp [transformMakerData]

/-- Witness for C7: the all-absent raw object normalizes to name `"Unknown"`. -/
theorem C7_maker_normalization_witness :
    (transformSingleMaker ({} : RawMaker)).name = "Unknown" :=
  C7_maker_normalization.2.1 {} rfl

/-! ## Sorter lemmas

The comparator sends an undefined key after every defined key in ascending
direction and before every defined key in descending direction; the lemmas
below show stable insertion keeps the sorted list split accordingly. -/

theorem orderedInsert_missing_asc {α : Type} (lc : String → String → Int)
    (keyFn : α → Option SortVal) (x : α) (hx : keyFn x = none) :
    ∀ (s u : List α), (∀ y ∈ s, keyFn y ≠ none) → (∀ y ∈ u, keyFn y = none) →
      ∃ u2, List.orderedInsert (fun a b => sorterCmp lc SortDir.asc (keyFn a) (keyFn b) ≤ 0)
          x (s ++ u) = s ++ u2 ∧ ∀ y ∈ u2, keyFn y = none := by
  intro s
  induction s with
  | nil =>
    intro u _ hu
    cases u with
    | nil =>
      refine ⟨[x], by simp [List.orderedInsert], ?_⟩
      intro y hy
      rw [List.mem_singleton.mp hy]
      exact hx
    | cons v vs =>
      have hcond : sorterCmp lc SortDir.asc (keyFn x) (keyFn v) ≤ 0 := by
        rw [hx, hu v (by simp)]
        simp [sorterCmp]
      refine ⟨x :: v :: vs, by simp [List.orderedInsert, if_pos hcond], ?_⟩
      intro y hy
      rcases List.mem_cons.mp hy with h | h
      · rw [h]; exact hx
      · exact hu y h
  | cons a s2 ih =>
    intro u hs hu
    obtain ⟨w, hw⟩ := Option.ne_none_iff_exists'.mp (hs a (by simp))
    have hcond : ¬ (sorterCmp lc SortDir.asc (keyFn x) (keyFn a) ≤ 0) := by
      rw [hx, hw]
      simp [sorterCmp]
    obtain ⟨u2, heq, hnone⟩ := ih u (fun y hy => hs y (by simp [hy])) hu
    refine ⟨u2, ?_, hnone⟩
    simp only [List.cons_append, List.orderedInsert, if_neg hcond, List.append_eq, heq]

theorem orderedInsert_defined_asc {α : Type} (lc : String → String → Int)
    (keyFn : α → Option SortVal) (x : α) (hx : keyFn x ≠ none) :
    ∀ (s u : List α), (∀ y ∈ s, keyFn y ≠ none) → (∀ y ∈ u, keyFn y = none) →
      ∃ s2, List.orderedInsert (fun a b => sorterCmp lc SortDir.asc (keyFn a) (keyFn b) ≤ 0)
          x (s ++ u) = s2 ++ u ∧ ∀ y ∈ s2, keyFn y ≠ none := by
  intro s
  induction s with
  | nil =>
    intro u _ hu
    cases u with
    | nil =>
      refine ⟨[x], by simp [List.orderedInsert], ?_⟩
      intro y hy
      rw [List.mem_singleton.mp hy]
      exact hx
    | cons v vs =>
      obtain ⟨w, hw⟩ := Option.ne_none_iff_exists'.mp hx
      have hcond : sorterCmp lc SortDir.asc (keyFn x) (keyFn v) ≤ 0 := by
        rw [hw, hu v (by simp)]
        simp [sorterCmp]
      refine ⟨[x], by simp [List.orderedInsert, if_pos hcond], ?_⟩
      intro y hy
      rw [List.mem_singleton.mp hy]
      exact hx
  | cons a s2 ih =>
    intro u hs hu
    by_cases hcond : sorterCmp lc SortDir.asc (keyFn x) (keyFn a) ≤ 0
    · refine ⟨x :: a :: s2, by simp [List.orderedInsert, if_pos hcond], ?_⟩
      intro y hy
      rcases List.mem_cons.mp hy with h | h
      · rw [h]; exact hx
      · exact hs y h
    · obtain ⟨s3, heq, hdef⟩ := ih u (fun y hy => hs y (by simp [hy])) hu
      refine ⟨a :: s3, ?_, ?_⟩
      · simp only [List.cons_append, List.orderedInsert, if_neg hcond, List.append_eq, heq]
      · intro y hy
        rcases List.mem_cons.mp hy with h | h
        · rw [h]; exact hs a (by simp)
        · exact hdef y h

theorem orderedInsert_missing_desc {α : Type} (lc : String → String → Int)
    (keyFn : α → Option SortVal) (x : α) (hx : keyFn x = none) :
    ∀ (u s : List α), (∀ y ∈ u, keyFn y = none) → (∀ y ∈ s, keyFn y ≠ none) →
      List.orderedInsert (fun a b => sorterCmp lc SortDir.desc (keyFn a) (keyFn b) ≤ 0)
        x (u ++ s) = x :: (u ++ s) := by
  intro u s hu hs
  cases u with
  | cons v vs =>
    have hcond : sorterCmp lc SortDir.desc (keyFn x) (keyFn v) ≤ 0 := by
      rw [hx, hu v (by simp)]
      simp [sorterCmp]
    simp [List.orderedInsert, if_pos hcond]
  | nil =>
    cases s with
    | nil => simp [List.orderedInsert]
    | cons a s2 =>
      obtain ⟨w, hw⟩ := Option.ne_none_iff_exists'.mp (hs a (by simp))
      have hcond : sorterCmp lc SortDir.desc (keyFn x) (keyFn a) ≤ 0 := by
        rw [hx, hw]
        simp [sorterCmp]
      simp [List.orderedInsert, if_pos hcond]

theorem orderedInsert_defined_desc_inner {α : Type} (lc : String → String → Int)
    (keyFn : α → Option SortVal) (x : α) (hx : keyFn x ≠ none) :
    ∀ (s : List α), (∀ y ∈ s, keyFn y ≠ none) →
      ∃ s2, List.orderedInsert (fun a b => sorterCmp lc SortDir.desc (keyFn a) (keyFn b) ≤ 0)
          x s = s2 ∧ ∀ y ∈ s2, keyFn y ≠ none := by
  intro s
  induction s with
  | nil =>
    intro _
    refine ⟨[x], by simp [List.orderedInsert], ?_⟩
    intro y hy
    rw [List.mem_singleton.mp hy]
    exact hx
  | cons a s2 ih =>
    intro hs
    by_cases hcond : sorterCmp lc SortDir.desc (keyFn x) (keyFn a) ≤ 0
    · refine ⟨x :: a :: s2, by simp [List.orderedInsert, if_pos hcond], ?_⟩
      intro y hy
      rcases List.mem_cons.mp hy with h | h
      · rw [h]; exact hx
      · exact hs y h
    · obtain ⟨s3, heq, hdef⟩ := ih (fun y hy => hs y (by simp [hy]))
      refine ⟨a :: s3, ?_, ?_⟩
      · simp only [List.orderedInsert, if_neg hcond, heq]
      · intro y hy
        rcases List.mem_cons.mp hy with h | h
        · rw [h]; exact hs a (by simp)
        · exact hdef y h

theorem orderedInsert_defined_desc {α : Type} (lc : String → String → Int)
    (keyFn : α → Option SortVal) (x : α) (hx : keyFn x ≠ none) :
    ∀ (u s : List α), (∀ y ∈ u, keyFn y = none) → (∀ y ∈ s, keyFn y ≠ none) →
      ∃ s2, List.orderedInsert (fun a b => sorterCmp lc SortDir.desc (keyFn a) (keyFn b) ≤ 0)
          x (u ++ s) = u ++ s2 ∧ ∀ y ∈ s2, keyFn y ≠ none := by
  intro u
  induction u with
  | nil =>
    intro s _ hs
    obtain ⟨s2, heq, hdef⟩ := orderedInsert_defined_desc_inner lc keyFn x hx s hs
    exact ⟨s2, by simpa using heq, hdef⟩
  | cons v vs ih =>
    intro s hu hs
    obtain ⟨w, hw⟩ := Option.ne_none_iff_exists'.mp hx
    have hcond : ¬ (sorterCmp lc SortDir.desc (keyFn x) (keyFn v) ≤ 0) := by
      rw [hw, hu v (by simp)]
      simp [sorterCmp]
    obtain ⟨s2, heq, hdef⟩ := ih s (fun y hy => hu y (by simp [hy])) hs
    refine ⟨s2, ?_, hdef⟩
    simp only [List.cons_append, List.orderedInsert, if_neg hcond, List.append_eq, heq]

/-- Ascending sorts end with the undefined-key block. -/
theorem createSorter_split_asc {α : Type} (lc : String → String → Int)
    (keyFn : α → Option SortVal) (data : List α) :
    ∃ s u, createSorter lc keyFn SortDir.asc data = s ++ u ∧
      (∀ y ∈ s, keyFn y ≠ none) ∧ (∀ y ∈ u, keyFn y = none) := by
  induction data with
  | nil => exact ⟨[], [], rfl, by simp, by simp⟩
  | cons x xs ih =>
    obtain ⟨s, u, heq, hs, hu⟩ := ih
    rw [createSorter, jsSortStable] at heq ⊢
    rw [List.insertionSort]
    rw [heq]
    by_cases hx : keyFn x = none
    · obtain ⟨u2, h2, hnone⟩ := orderedInsert_missing_asc lc keyFn x hx s u hs hu
      exact ⟨s, u2, h2, hs, hnone⟩
    · obtain ⟨s2, h2, hdef⟩ := orderedInsert_defined_asc lc keyFn x hx s u hs hu
      exact ⟨s2, u, h2, hdef, hu⟩

/-- Descending sorts begin with the undefined-key block. -/
theorem createSorter_split_desc {α : Type} (lc : String → String → Int)
    (keyFn : α → Option SortVal) (data : List α) :
    ∃ u s, createSorter lc keyFn SortDir.desc data = u ++ s ∧
      (∀ y ∈ u, keyFn y = none) ∧ (∀ y ∈ s, keyFn y ≠ none) := by
  induction data with
  | nil => exact ⟨[], [], rfl, by simp, by simp⟩
  | cons x xs ih =>
    obtain ⟨u, s, heq, hu, hs⟩ := ih
    rw [createSorter, jsSortStable] at heq ⊢
    rw [List.insertionSort]
    rw [heq]
    by_cases hx : keyFn x = none
    · rw [orderedInsert_missing_desc lc keyFn x hx u s hu hs]
      refine ⟨x :: u, s, by simp, ?_, hs⟩
      intro y hy
      rcases List.mem_cons.mp hy with h | h
      · rw [h]; exact hx
      · exact hu y h
    · obtain ⟨s2, h2, hdef⟩ := orderedInsert_defined_desc lc keyFn x hx u s hu hs
      exact ⟨u, s2, h2, hu, hdef⟩

/-- C8: for every collection, key projection and string comparison, sorting
ascending places every record with an undefined sort field after all records
with a defined one, and sorting descending places them before all records
with a defined one; the output is a permutation of the input (nothing is
dropped); and the spec's concrete example sorts
`[{name:"B"}, {name:undefined}, {name:"A"}]` ascending by name to
`["A", "B", undefined]`. -/
theorem C8_sort_undefined_placement {α : Type} (lc : String → String → Int)
    (keyFn : α → Option SortVal) (data : List α) :
    (∀ dir, (createSorter lc keyFn dir data).Perm data) ∧
    (∃ s u, createSorter lc keyFn SortDir.asc data = s ++ u ∧
      (∀ y ∈ s, keyFn y ≠ none) ∧ (∀ y ∈ u, keyFn y = none)) ∧
    (∃ u s, createSorter lc keyFn SortDir.desc data = u ++ s ∧
      (∀ y ∈ u, keyFn y = none) ∧ (∀ y ∈ s, keyFn y ≠ none)) ∧
    (createSorter lexCmp (fun r : NamedRec => r.name.map SortVal.str) SortDir.asc
        [⟨some "B"⟩, ⟨none⟩, ⟨some "A"⟩] =
      [⟨some "A"⟩, ⟨some "B"⟩, ⟨none⟩]) := by
  refine ⟨?_, createSorter_split_asc lc keyFn data, createSorter_split_desc lc keyFn data,
    by decide⟩
  intro dir
  exact List.perm_insertionSort _ data

/-! ## Search filter lemmas -/

theorem lowerGetD (o : Option String) :
    (o.map jsToLower).getD "" = jsToLower (o.getD "") := by
  cases o <;> rfl

theorem any_flatMap_pair (l : List PriceExample) (f : String → Bool) :
    (l.flatMap (fun ex => [ex.type, ex.price])).any f =
      l.any (fun ex => f ex.type || f ex.price) := by
  induction l with
  | nil => rfl
  | cons x xs ih => simp [List.any_append, ih, Bool.or_assoc]

theorem any_filter_map_snd (l : List (String × Bool)) (f : String → Bool) :
    ((l.filter (fun p => p.2)).map (fun p => p.1)).any f =
      l.any (fun p => p.2 && f p.1) := by
  induction l with
  | nil => rfl
  | cons x xs ih =>
    rcases x with ⟨k, b⟩
    cases b <;> simp [List.filter_cons, ih]

/-- The maker search predicate from the code equals the spec's "some
searchable field, case-folded, contains the case-folded query" predicate. -/
theorem makerMatches_eq (m : Maker) (q : String) :
    makerMatchesCode (jsToLower q) m = makerMatchesSpec m q := by
  simp only [makerMatchesCode, makerMatchesSpec, makerSearchFields, List.any_append,
    List.any_cons, List.any_nil, List.any_map, lowerGetD, Function.comp]
  cases m.englishOrdering with
  | none => simp [Bool.or_assoc, any_filter_map_snd]
  | some v =>
    cases v with
    | bool b => simp [Bool.or_assoc, any_filter_map_snd]
    | str s => simp [Bool.or_assoc, any_filter_map_snd]

/-- The hadatai search predicate from the code equals the spec's predicate. -/
theorem hadataiMatches_eq (h : Hadatai) (q : String) :
    hadataiMatchesCode (jsToLower q) h = hadataiMatchesSpec h q := by
  simp only [hadataiMatchesCode, hadataiMatchesSpec, hadataiSearchFields, List.any_append,
    List.any_cons, List.any_nil, lowerGetD, any_flatMap_pair]

/-- C9: the search filters return exactly the subsequence of records
(relative order preserved — the result is a sublist of the input) for which
some configured searchable field, case-folded, contains the case-folded query
as a substring, and an empty or whitespace-only query returns the input
collection unchanged. (Matching is case-insensitive via ASCII case folding;
characters outside the fold, accents included, are compared verbatim.) -/
theorem C9_search_contract (data : List Maker) (dataH : List Hadatai) (q : String) :
    (jsTrim q = "" →
      filterMakersBySearch data q = data ∧ filterHadataiBySearch dataH q = dataH) ∧
    (jsTrim q ≠ "" →
      filterMakersBySearch data q = data.filter (fun m => makerMatchesSpec m q) ∧
      filterHadataiBySearch dataH q = dataH.filter (fun h => hadataiMatchesSpec h q)) ∧
    (filterMakersBySearch data q).Sublist data ∧
    (filterHadataiBySearch dataH q).Sublist dataH := by
  refine ⟨?_, ?_, ?_, ?_⟩
  · intro h
    constructor <;> simp [filterMakersBySearch, filterHadataiBySearch, h]
  · intro h
    constructor
    · rw [filterMakersBySearch, if_neg h]
      exact List.filter_congr (fun m _ => makerMatches_eq m q)
    · rw [filterHadataiBySearch, if_neg h]
      exact List.filter_congr (fun x _ => hadataiMatches_eq x q)
  · rw [filterMakersBySearch]
    split
    · exact List.Sublist.refl data
    · exact List.filter_sublist data
  · rw [filterHadataiBySearch]
    split
    · exact List.Sublist.refl dataH
    · exact List.filter_sublist dataH

/-- Witness for C9: the spec's three-record example — only one record's region
is `"Tokyo, Japan"`; querying `"tokyo"` returns exactly that record, and a
whitespace-only query returns the collection unchanged. -/
theorem C9_search_contract_witness :
    filterMakersBySearch
        [{ name := "A" }, { name := "B", region := some "Tokyo, Japan" }, { name := "C" }]
        "   " =
      [{ name := "A" }, { name := "B", region := some "Tokyo, Japan" }, { name := "C" }] ∧
    filterMakersBySearch
        [{ name := "A" }, { name := "B", region := some "Tokyo, Japan" }, { name := "C" }]
        "tokyo" =
      List.filter (fun m => makerMatchesSpec m "tokyo")
        [{ name := "A" }, { name := "B", region := some "Tokyo, Japan" }, { name := "C" }] ∧
    filterMakersBySearch
        [{ name := "A" }, { name := "B", region := some "Tokyo, Japan" }, { name := "C" }]
        "tokyo" =
      [{ name := "B", region := some "Tokyo, Japan" }] := by
  have h1 := C9_search_contract
    [{ name := "A" }, { name := "B", region := some "Tokyo, Japan" }, { name := "C" }] [] "   "
  have h2 := C9_search_contract
    [{ name := "A" }, { name := "B", region := some "Tokyo, Japan" }, { name := "C" }] []
    "tokyo"
  exact ⟨(h1.1 (by decide)).1, (h2.2.1 (by decide)).1, by decide⟩

/-! ## English-ordering inference -/

/-- C10: every normalized Hadatai record carries a defined `englishOrdering`
value (the field's type is total — `transformSingleHadatai` always sets it to
`getEnglishOrderingSupport item`): an explicit raw field is passed through
unchanged; with no explicit field, if the Taobao-agent override does not
apply and none of the positive indicators (website/english/international
phrasing in the notes, or `USD` currency) matches, the value defaults to the
boolean `false` — never undefined. -/
theorem C10_english_ordering_defined (rates : Option CurrencyRates) (item : RawHadatai) :
    ((transformSingleHadatai rates item).englishOrdering = getEnglishOrderingSupport item) ∧
    (∀ v, item.englishOrdering = some v → getEnglishOrderingSupport item = v) ∧
    (item.englishOrdering = none →
      jsIncludes ((item.notes.map jsToLower).getD "") "taobao" = false →
      jsIncludes ((item.notes.map jsToLower).getD "") "website" = false →
      jsIncludes ((item.notes.map jsToLower).getD "") "ordered via their own website" = false →
      jsIncludes ((item.notes.map jsToLower).getD "") "english" = false →
      jsIncludes ((item.notes.map jsToLower).getD "") "international" = false →
      (item.currency == some "USD") = false →
      getEnglishOrderingSupport item = EngOrd.bool false) := by
  refine ⟨rfl, ?_, ?_⟩
  · intro v h
    simp [getEnglishOrderingSupport, h]
  · intro h0 h1 h2 h3 h4 h5 h6
    simp [getEnglishOrderingSupport, h0, h1, h2, h3, h4, h5, h6]

/-- Witness for C10: a record with unrelated notes and non-USD currency
defaults to `false`; an explicit string field is passed through. -/
theorem C10_english_ordering_defined_witness :
    getEnglishOrderingSupport
        { notes := some "Ships domestically only", currency := some "JPY" } =
      EngOrd.bool false ∧
    getEnglishOrderingSupport { englishOrdering := some (EngOrd.str "Via proxy") } =
      EngOrd.str "Via proxy" := by
  have h1 := C10_english_ordering_defined none
    { notes := some "Ships domestically only", currency := some "JPY" }
  have h2 := C10_english_ordering_defined none
    { englishOrdering := some (EngOrd.str "Via proxy") }
  exact ⟨h1.2.2 rfl (by decide) (by decide) (by decide) (by decide) (by decide) (by decide),
    h2.2.1 (EngOrd.str "Via proxy") rfl⟩

end KigWiki
